import Mathlib

/-! Utility RPC service (`src/services/utils/server.cpp`)

A shallow embedding of the three handlers of `UtilsServiceImpl`
(`EnsureDir`, `ClampNumber`, `JidToE164`) together with the library
primitives they call (`std::regex_search`, `std::min`, `std::max`,
`std::filesystem::create_directories`), followed by the properties
established about them.

Strings are lists of characters.  The pattern used by `JidToE164` consists
of ASCII characters only and is anchored on both sides, so a `std::string`
(a byte string) matches exactly when the corresponding character string
does: every byte of a multi-byte UTF-8 sequence is `≥ 0x80` and is matched
by no atom of the pattern.
-/

namespace UtilsService

/-! ## gRPC status -/

/-- The `grpc::Status` returned by a handler: `Status::OK` or a failure
with a status code and a message. -/
inductive Status where
  | OK : Status
  | failed : Nat → String → Status
  deriving DecidableEq, Repr

/-! ## A backtracking matcher for the ECMAScript fragment used by the service -/

/-- Abstract syntax of the regular expressions that occur in the service:
the empty pattern, the anchors `^` and `$` (without the multiline option,
so they match at the two ends of the subject only), the class `\d` (the
ASCII digits in the default locale), literal characters, concatenation,
alternation, greedy `+` and `?`, capturing and non-capturing groups. -/
inductive Regex where
  | empty : Regex
  | bol : Regex
  | eol : Regex
  | digit : Regex
  | lit : Char → Regex
  | seq : Regex → Regex → Regex
  | alt : Regex → Regex → Regex
  | plus : Regex → Regex
  | opt : Regex → Regex
  | group : Nat → Regex → Regex
  | ncgroup : Regex → Regex
  deriving Repr

/-- A matcher state: the offset `pos` of the cursor in the subject, the
characters `rest` still to be read, and the capture groups closed so far
(most recent first). -/
structure MState where
  pos : Nat
  rest : List Char
  caps : List (Nat × List Char)
  deriving DecidableEq, Repr

/-- Greedy iteration of a one-step matcher `f`: all the states reachable by
zero or more non-empty iterations, longest first.  An iteration that does
not consume input is rejected, as ECMAScript prescribes, so `fuel` equal to
the number of remaining characters is never exhausted. -/
def star (f : MState → List MState) : Nat → MState → List MState
  | 0, s => [s]
  | n + 1, s =>
    ((f s).filter (fun t => decide (t.rest.length < s.rest.length))).flatMap (star f n) ++ [s]

/-- All the ways `re` matches at state `s`, in the priority order of a
backtracking matcher (the first element is the match that is reported). -/
def run : Regex → MState → List MState
  | .empty, s => [s]
  | .bol, s => if s.pos = 0 then [s] else []
  | .eol, s => if s.rest = [] then [s] else []
  | .digit, s =>
    match s.rest with
    | c :: cs => if c.isDigit then [{ pos := s.pos + 1, rest := cs, caps := s.caps }] else []
    | [] => []
  | .lit a, s =>
    match s.rest with
    | c :: cs => if c = a then [{ pos := s.pos + 1, rest := cs, caps := s.caps }] else []
    | [] => []
  | .seq a b, s => (run a s).flatMap (run b)
  | .alt a b, s => run a s ++ run b s
  | .plus a, s => (run a s).flatMap (fun t => star (run a) t.rest.length t)
  | .opt a, s => run a s ++ [s]
  | .group n a, s =>
    (run a s).map (fun t => { t with caps := (n, s.rest.take (t.pos - s.pos)) :: t.caps })
  | .ncgroup a, s => run a s

/-- The pattern matching the literal characters of `w` one after another. -/
def lits : List Char → Regex
  | [] => .empty
  | c :: cs => .seq (.lit c) (lits cs)

/-- The number of capturing groups of a pattern (`mark_count`). -/
def Regex.markCount : Regex → Nat
  | .seq a b => a.markCount + b.markCount
  | .alt a b => a.markCount + b.markCount
  | .plus a => a.markCount
  | .opt a => a.markCount
  | .group _ a => a.markCount + 1
  | .ncgroup a => a.markCount
  | _ => 0

/-- The result of a successful `std::regex_search`: the number of
sub-matches (the whole match and one per capturing group) and the text of
the capture groups that took part in the match. -/
structure SMatch where
  size : Nat
  caps : List (Nat × List Char)
  deriving DecidableEq, Repr

/-- The text of sub-match `i` (`match.str(i)`); empty when the group did
not take part in the match. -/
def SMatch.str (m : SMatch) (i : Nat) : List Char :=
  (m.caps.lookup i).getD []

/-- Scan of `std::regex_search`: try a match starting at the cursor, and on
failure move the cursor one character to the right, until the end of the
subject has been tried. -/
def searchFrom (re : Regex) : Nat → List Char → Option SMatch
  | pos, [] =>
    match run re { pos := pos, rest := [], caps := [] } with
    | t :: _ => some { size := re.markCount + 1, caps := t.caps }
    | [] => none
  | pos, c :: cs =>
    match run re { pos := pos, rest := c :: cs, caps := [] } with
    | t :: _ => some { size := re.markCount + 1, caps := t.caps }
    | [] => searchFrom re (pos + 1) cs

/-- The call `std::regex_search(subject, match, re)`: the leftmost match of
`re` in `subject`, if there is one. -/
def regex_search (subject : List Char) (re : Regex) : Option SMatch :=
  searchFrom re 0 subject

/-! ## `JidToE164` -/

/-- The first domain of the pattern, `s.whatsapp.net`. -/
def whatsappDomain : List Char := "s.whatsapp.net".data

/-- The second domain of the pattern, `hosted`. -/
def hostedDomain : List Char := "hosted".data

/-- The part `(s\.whatsapp\.net|hosted)` of the pattern, its second group. -/
def jidDomains : Regex :=
  .group 2 (.alt (lits whatsappDomain) (lits hostedDomain))

/-- The part `@(s\.whatsapp\.net|hosted)$` of the pattern. -/
def jidTail : Regex :=
  .seq (.lit '@') (.seq jidDomains .eol)

/-- The part `(?::\d+)?` of the pattern. -/
def jidSession : Regex :=
  .opt (.ncgroup (.seq (.lit ':') (.plus .digit)))

/-- The regular expression `^(\d+)(?::\d+)?@(s\.whatsapp\.net|hosted)$`
compiled by the handler. -/
def jidRegex : Regex :=
  .seq .bol (.seq (.group 1 (.plus .digit)) (.seq jidSession jidTail))

/-- The request message of `JidToE164`. -/
structure JidToE164Request where
  jid : String
  deriving DecidableEq, Repr

/-- The reply message of `JidToE164`; `e164` is empty until it is set. -/
structure JidToE164Response where
  e164 : String := ""
  deriving DecidableEq, Repr

/-- The setter `set_e164` of the reply message. -/
def JidToE164Response.set_e164 (_ : JidToE164Response) (v : String) : JidToE164Response :=
  { e164 := v }

/-- The handler `UtilsServiceImpl::JidToE164`: the status returned and the
reply message it filled in. -/
def JidToE164 (request : JidToE164Request) : Status × JidToE164Response :=
  let reply : JidToE164Response := {}
  let jid := request.jid
  let re := jidRegex
  match regex_search jid.data re with
  | some m =>
    if m.size > 1 then (Status.OK, reply.set_e164 ("+" ++ String.mk (m.str 1)))
    else (Status.OK, reply)
  | none => (Status.OK, reply)

/-! ## `ClampNumber` -/

/-- The helper `asm_increment`: `addl $1, %eax` on a 32-bit `int`, the sum
wrapping around in two's complement. -/
def asm_increment (val : Int) : Int :=
  (val + 1 + 2 ^ 31) % 2 ^ 32 - 2 ^ 31

/-- A `double` as far as its comparisons are concerned: a NaN, the two
infinities, the negative zero, and the finite values other than `-0.0`,
each of which is a rational number (`fin 0` is `+0.0`). -/
inductive Double where
  | nan : Double
  | negInf : Double
  | negZero : Double
  | fin : ℚ → Double
  | posInf : Double
  deriving DecidableEq

namespace Double

/-- Whether the value is a NaN. -/
def isNaN : Double → Bool
  | nan => true
  | _ => false

/-- The rational number a finite value denotes (both zeros denote `0`). -/
def toRat? : Double → Option ℚ
  | negZero => some 0
  | fin q => some q
  | _ => none

/-- The point of the extended number line a value other than a NaN
denotes (both zeros denote `0`). -/
def toExt? : Double → Option (WithBot (WithTop ℚ))
  | nan => none
  | negInf => some ⊥
  | negZero => some (((0 : ℚ) : WithTop ℚ) : WithBot (WithTop ℚ))
  | fin q => some ((q : WithTop ℚ) : WithBot (WithTop ℚ))
  | posInf => some ((⊤ : WithTop ℚ) : WithBot (WithTop ℚ))

/-- The comparison `a < b` of two doubles: false as soon as one of them is
a NaN, the order of the extended number line otherwise. -/
def lt (a b : Double) : Bool :=
  match a.toExt?, b.toExt? with
  | some x, some y => decide (x < y)
  | _, _ => false

/-- The comparison `a == b`: false as soon as one of them is a NaN, equality
on the extended number line otherwise (so the two zeros are equal). -/
def eq (a b : Double) : Bool :=
  match a.toExt?, b.toExt? with
  | some x, some y => decide (x = y)
  | _, _ => false

/-- The comparison `a <= b`: false as soon as one of them is a NaN. -/
def le (a b : Double) : Bool :=
  match a.toExt?, b.toExt? with
  | some x, some y => decide (x ≤ y)
  | _, _ => false

/-- Whether the value is one of the two zeros. -/
def isZero : Double → Bool
  | negZero => true
  | fin q => decide (q = 0)
  | _ => false

end Double

/-- The function `std::min(a, b)` of `<algorithm>`: `(b < a) ? b : a`. -/
def std_min (a b : Double) : Double :=
  if Double.lt b a then b else a

/-- The function `std::max(a, b)` of `<algorithm>`: `(a < b) ? b : a`. -/
def std_max (a b : Double) : Double :=
  if Double.lt a b then b else a

/-- The request message of `ClampNumber`. -/
structure ClampNumberRequest where
  value : Double
  min : Double
  max : Double
  deriving DecidableEq

/-- The reply message of `ClampNumber`; `result` is `0.0` until it is set. -/
structure ClampNumberResponse where
  result : Double := Double.fin 0
  deriving DecidableEq

/-- The setter `set_result` of the reply message. -/
def ClampNumberResponse.set_result (_ : ClampNumberResponse) (v : Double) :
    ClampNumberResponse :=
  { result := v }

/-- The handler `UtilsServiceImpl::ClampNumber`. -/
def ClampNumber (request : ClampNumberRequest) : Status × ClampNumberResponse :=
  let reply : ClampNumberResponse := {}
  let _counter := asm_increment 0
  let v := request.value
  let mn := request.min
  let mx := request.max
  (Status.OK, reply.set_result (std_max mn (std_min mx v)))

/-! ## `EnsureDir` -/

/-- How a call of a library routine ends: it returns its `bool` result, or
it throws an exception derived from `std::exception` whose `what()` is the
given message. -/
inductive Outcome where
  | returned : Bool → Outcome
  | threw : String → Outcome
  deriving DecidableEq, Repr

/-- The request message of `EnsureDir`. -/
structure EnsureDirRequest where
  path : String
  deriving DecidableEq, Repr

/-- The reply message of `EnsureDir`; `success` is `false` and `error` is
empty until they are set. -/
structure EnsureDirResponse where
  success : Bool := false
  error : String := ""
  deriving DecidableEq, Repr

/-- The setter `set_success` of the reply message. -/
def EnsureDirResponse.set_success (r : EnsureDirResponse) (v : Bool) : EnsureDirResponse :=
  { r with success := v }

/-- The setter `set_error` of the reply message. -/
def EnsureDirResponse.set_error (r : EnsureDirResponse) (v : String) : EnsureDirResponse :=
  { r with error := v }

/-- The handler `UtilsServiceImpl::EnsureDir`, over a directory-creation
primitive `create_directories` acting on a file system of type `σ`: the
status returned and the reply filled in, and the file system left behind. -/
def EnsureDir {σ : Type} (create_directories : σ → String → Outcome × σ)
    (request : EnsureDirRequest) (fs : σ) : (Status × EnsureDirResponse) × σ :=
  let reply : EnsureDirResponse := {}
  match create_directories fs request.path with
  | (Outcome.returned _, fs') => ((Status.OK, reply.set_success true), fs')
  | (Outcome.threw what, fs') =>
    ((Status.OK, (reply.set_success false).set_error what), fs')

/-! ### A file system and `std::filesystem::create_directories`

The code of the library routine is not part of the repository.  It is
modelled from the contract the specification gives for it (create the
directory with all its missing ancestors; an existing directory is a
success; an invalid path, a denied permission and a name taken by a plain
file are failures), in the order of operations of the C++ standard library,
over a file system that consists of plain files and directories; a
directory is writable or not.  Symbolic links and the special names `.` and
`..` are outside the model, and a relative path is taken from the root. -/

/-- What a path of the file system denotes. -/
inductive Node where
  | file : Node
  | dir : Bool → Node
  deriving DecidableEq, Repr

/-- Whether the node is a directory. -/
def Node.isDir : Node → Bool
  | .dir _ => true
  | .file => false

/-- A location: the names from the root down to the entry, innermost name
first, so that the tail of a location is its parent and `[]` is the root. -/
abbrev Location := List (List Char)

/-- A file system state: the entries that exist, each with its node. -/
structure FileSystem where
  entries : List (Location × Node)
  deriving DecidableEq, Repr

namespace FileSystem

/-- The node at a location (`std::filesystem::status`), if it exists. -/
def status (fs : FileSystem) (p : Location) : Option Node :=
  fs.entries.lookup p

/-- Whether a directory exists at the location. -/
def isDirectory (fs : FileSystem) (p : Location) : Bool :=
  match fs.status p with
  | some n => n.isDir
  | none => false

/-- Whether the state is a tree: the root is a directory, and every other
entry lies in a directory. -/
def wellFormed (fs : FileSystem) : Bool :=
  fs.isDirectory [] &&
    fs.entries.all (fun e =>
      match e.1 with
      | [] => true
      | _ :: parent => fs.isDirectory parent)

/-- The message of the `filesystem_error` thrown for a failure. -/
def errorMessage (reason : String) : String :=
  "filesystem error: cannot create directories: " ++ reason

/-- Modelled from the spec: the library routine `create_directory`, whose
code is not in the repository, on one location: nothing to do when a
directory is there already, an error when something else is there or when
the parent is missing, is not a directory or is not writable, and a new
writable directory otherwise. -/
def create_directory (fs : FileSystem) (p : Location) : Outcome × FileSystem :=
  match fs.status p with
  | some (.dir _) => (Outcome.returned false, fs)
  | some .file => (Outcome.threw (errorMessage "File exists"), fs)
  | none =>
    match p with
    | [] => (Outcome.threw (errorMessage "No such file or directory"), fs)
    | _ :: parent =>
      match fs.status parent with
      | some (.dir true) => (Outcome.returned true, { entries := (p, .dir true) :: fs.entries })
      | some (.dir false) => (Outcome.threw (errorMessage "Permission denied"), fs)
      | some .file => (Outcome.threw (errorMessage "Not a directory"), fs)
      | none => (Outcome.threw (errorMessage "No such file or directory"), fs)

/-- Modelled from the spec: the library routine `create_directories`,
whose code is not in the repository, on a location: nothing to do when a
directory is there, an error when something else is there; otherwise the
missing ancestors are created from the outermost one inwards, then the
entry itself, the first failure ending the call with what was created so
far left in place. -/
def createAll (fs : FileSystem) : Location → Outcome × FileSystem
  | [] =>
    match fs.status [] with
    | some (.dir _) => (Outcome.returned false, fs)
    | some .file => (Outcome.threw (errorMessage "Not a directory"), fs)
    | none => create_directory fs []
  | name :: parent =>
    match fs.status (name :: parent) with
    | some (.dir _) => (Outcome.returned false, fs)
    | some .file => (Outcome.threw (errorMessage "Not a directory"), fs)
    | none =>
      match createAll fs parent with
      | (Outcome.threw what, fs') => (Outcome.threw what, fs')
      | (Outcome.returned _, fs') => create_directory fs' (name :: parent)

/-- The pieces of a path between its `/` separators. -/
def pieces : List Char → List (List Char)
  | [] => [[]]
  | c :: cs =>
    if c = '/' then [] :: pieces cs
    else
      match pieces cs with
      | w :: ws => (c :: w) :: ws
      | [] => [[c]]

/-- The location a path string names: its non-empty pieces, innermost
first. -/
def locate (path : String) : Location :=
  ((pieces path.data).filter (fun w => !w.isEmpty)).reverse

/-- Modelled from the spec: the call
`std::filesystem::create_directories(path)`, whose code is not in the
repository: the empty path is an invalid argument, any other path is
created with its ancestors. -/
def create_directories (fs : FileSystem) (path : String) : Outcome × FileSystem :=
  if path.data.isEmpty then (Outcome.threw (errorMessage "Invalid argument"), fs)
  else createAll fs (locate path)

/-- Whether a directory is or can be made to exist at the location, read
off the state: the entry is a directory already, or it is missing, its
parent is or can be made to exist, and the parent, when it is there
already, is writable. -/
def creatable (fs : FileSystem) : Location → Bool
  | [] => fs.isDirectory []
  | name :: parent =>
    match fs.status (name :: parent) with
    | some n => n.isDir
    | none =>
      creatable fs parent &&
        (match fs.status parent with
          | some (.dir w) => w
          | some .file => false
          | none => true)

/-- An existing-or-creatable path: a non-empty path whose location is or
can be made a directory. -/
def existingOrCreatable (fs : FileSystem) (path : String) : Bool :=
  !path.data.isEmpty && fs.creatable (locate path)

end FileSystem

/-! ## Reference definitions used to state the properties -/

/-- Every character of the list is an ASCII digit `0`-`9`. -/
def AllDigits (d : List Char) : Prop :=
  ∀ c ∈ d, c.isDigit = true

instance (d : List Char) : Decidable (AllDigits d) :=
  inferInstanceAs (Decidable (∀ c ∈ d, c.isDigit = true))

/-- The optional session suffix of an identifier: absent, or `:` followed
by one or more ASCII digits. -/
def IsSessionSuffix (s : List Char) : Prop :=
  s = [] ∨ ∃ t, t ≠ [] ∧ AllDigits t ∧ s = ':' :: t

/-- The form `<digits>[":"<digits>]"@"<domain>` of the specification: the
identifier with leading digits `d`, session suffix `s` and domain `dom`. -/
def IsJid (jid d s dom : List Char) : Prop :=
  d ≠ [] ∧ AllDigits d ∧ IsSessionSuffix s ∧
    (dom = "s.whatsapp.net".data ∨ dom = "hosted".data) ∧ jid = d ++ s ++ '@' :: dom

/-- Direct reading of `@<domain>` at the end of an identifier: the domain. -/
def parseTail : List Char → Option (List Char)
  | [] => none
  | c :: dom =>
    if c = '@' ∧ (dom = whatsappDomain ∨ dom = hostedDomain) then some dom else none

/-- Direct reading of `[":"<digits>]"@"<domain>`: the domain. -/
def parseSession : List Char → Option (List Char)
  | [] => none
  | c :: cs =>
    if c = ':' then
      if cs.takeWhile Char.isDigit = [] then none
      else parseTail (cs.dropWhile Char.isDigit)
    else parseTail (c :: cs)

/-- Direct reading of a whole identifier: its leading digits and its
domain. -/
def parseJid (jid : List Char) : Option (List Char × List Char) :=
  if jid.takeWhile Char.isDigit = [] then none
  else (parseSession (jid.dropWhile Char.isDigit)).map
    (fun dom => (jid.takeWhile Char.isDigit, dom))

/-! ## Lemmas on the matcher -/

theorem isDigit_ne_at {c : Char} (h : c.isDigit = true) : c ≠ '@' := by
  rintro rfl
  exact absurd h (by decide)

theorem isDigit_ne_colon {c : Char} (h : c.isDigit = true) : c ≠ ':' := by
  rintro rfl
  exact absurd h (by decide)

theorem run_digit_cons (p : Nat) (c : Char) (cs : List Char) (caps : List (Nat × List Char)) :
    run .digit ⟨p, c :: cs, caps⟩ = if c.isDigit = true then [⟨p + 1, cs, caps⟩] else [] := rfl

theorem run_lit_cons (a : Char) (p : Nat) (c : Char) (cs : List Char)
    (caps : List (Nat × List Char)) :
    run (.lit a) ⟨p, c :: cs, caps⟩ = if c = a then [⟨p + 1, cs, caps⟩] else [] := rfl

theorem run_lit_nil (a : Char) (p : Nat) (caps : List (Nat × List Char)) :
    run (.lit a) ⟨p, [], caps⟩ = [] := rfl

theorem run_plus (a : Regex) (s : MState) :
    run (.plus a) s = (run a s).flatMap (fun t => star (run a) t.rest.length t) := rfl

theorem run_seq (a b : Regex) (s : MState) :
    run (.seq a b) s = (run a s).flatMap (run b) := rfl

theorem run_group (n : Nat) (a : Regex) (s : MState) :
    run (.group n a) s =
      (run a s).map (fun t => { t with caps := (n, s.rest.take (t.pos - s.pos)) :: t.caps }) :=
  rfl

theorem run_alt (a b : Regex) (s : MState) : run (.alt a b) s = run a s ++ run b s := rfl

theorem run_opt (a : Regex) (s : MState) : run (.opt a) s = run a s ++ [s] := rfl

theorem run_ncgroup (a : Regex) (s : MState) : run (.ncgroup a) s = run a s := rfl

theorem run_eol (s : MState) : run .eol s = if s.rest = [] then [s] else [] := rfl

theorem run_bol (s : MState) : run .bol s = if s.pos = 0 then [s] else [] := rfl

/-- The greedy iteration of `\d`, followed by a continuation that fails in
front of a digit, continues from the end of the run of digits only. -/
theorem star_digit_flatMap (f : MState → List MState)
    (hf : ∀ t c cs, t.rest = c :: cs → c.isDigit = true → f t = [])
    (rest : List Char) (p : Nat) (caps : List (Nat × List Char)) :
    (star (run .digit) rest.length ⟨p, rest, caps⟩).flatMap f =
      f ⟨p + (rest.takeWhile Char.isDigit).length, rest.dropWhile Char.isDigit, caps⟩ := by
  induction rest generalizing p with
  | nil => simp [star]
  | cons c cs ih =>
    by_cases hc : c.isDigit = true
    · have h0 : f ⟨p, c :: cs, caps⟩ = [] := hf _ c cs rfl hc
      simp [star, run_digit_cons, hc, ih, h0, List.takeWhile_cons, List.dropWhile_cons,
        Nat.add_assoc, Nat.add_comm 1]
    · simp [star, run_digit_cons, hc, List.takeWhile_cons, List.dropWhile_cons]

/-- The pattern `\d+`, followed by a continuation that fails in front of a
digit: the run of digits at the cursor must be non-empty and is consumed
whole. -/
theorem plus_digit_flatMap (f : MState → List MState)
    (hf : ∀ t c cs, t.rest = c :: cs → c.isDigit = true → f t = [])
    (rest : List Char) (p : Nat) (caps : List (Nat × List Char)) :
    (run (.plus .digit) ⟨p, rest, caps⟩).flatMap f =
      if rest.takeWhile Char.isDigit = [] then []
      else f ⟨p + (rest.takeWhile Char.isDigit).length, rest.dropWhile Char.isDigit, caps⟩ := by
  cases rest with
  | nil => simp [run_plus, run]
  | cons c cs =>
    by_cases hc : c.isDigit = true
    · have h := star_digit_flatMap f hf cs (p + 1) caps
      simp [run_plus, run_digit_cons, hc, h, List.takeWhile_cons, List.dropWhile_cons,
        Nat.add_assoc, Nat.add_comm 1]
    · simp [run_plus, run_digit_cons, hc, List.takeWhile_cons, List.dropWhile_cons]

/-- A sequence of literal characters matches when it is a prefix of what
is left, and consumes it. -/
theorem run_lits (w : List Char) (p : Nat) (rest : List Char) (caps : List (Nat × List Char)) :
    run (lits w) ⟨p, rest, caps⟩ =
      if w <+: rest then [⟨p + w.length, rest.drop w.length, caps⟩] else [] := by
  induction w generalizing p rest with
  | nil => simp [lits, run]
  | cons a w ih =>
    cases rest with
    | nil => simp [lits, run_seq, run_lit_nil]
    | cons c cs =>
      by_cases hc : c = a
      · subst hc
        simp [lits, run_seq, run_lit_cons, ih, List.cons_prefix_cons, Nat.add_assoc,
          Nat.add_comm 1]
      · have hc2 : ¬ a = c := fun h => hc h.symm
        simp [lits, run_seq, run_lit_cons, hc, hc2, List.cons_prefix_cons]

theorem whatsappDomain_eq :
    whatsappDomain = ['s', '.', 'w', 'h', 'a', 't', 's', 'a', 'p', 'p', '.', 'n', 'e', 't'] := rfl

theorem hostedDomain_eq : hostedDomain = ['h', 'o', 's', 't', 'e', 'd'] := rfl

/-- A literal sequence followed by `$` matches exactly itself. -/
theorem lits_eol_iff (w dom : List Char) :
    (w <+: dom ∧ dom.drop w.length = []) ↔ dom = w := by
  constructor
  · rintro ⟨⟨t, rfl⟩, h⟩
    simp at h
    simp [h]
  · rintro rfl
    simp

/-- The domain group followed by `$` matches exactly the two domains, the
whole of what is left. -/
theorem run_domains_eol (p : Nat) (dom : List Char) (caps : List (Nat × List Char)) :
    run (.seq jidDomains .eol) ⟨p, dom, caps⟩ =
      if dom = whatsappDomain ∨ dom = hostedDomain then
        [⟨p + dom.length, [], (2, dom) :: caps⟩]
      else [] := by
  rw [run_seq, jidDomains, run_group, run_alt, run_lits, run_lits]
  by_cases h1 : dom = whatsappDomain
  · subst h1
    have hn : ¬ hostedDomain <+: whatsappDomain := by decide
    simp [hn, run_eol]
  · by_cases h2 : dom = hostedDomain
    · subst h2
      have hn : ¬ whatsappDomain <+: hostedDomain := by decide
      simp [hn, run_eol]
    · have e1 := (lits_eol_iff whatsappDomain dom).not.mpr h1
      have e2 := (lits_eol_iff hostedDomain dom).not.mpr h2
      simp only [h1, h2, or_self, if_false]
      by_cases p1 : whatsappDomain <+: dom <;> by_cases p2 : hostedDomain <+: dom <;>
        simp_all [run_eol]

/-- The part `@(s\.whatsapp\.net|hosted)$` reads a domain to the end. -/
theorem run_jidTail (p : Nat) (rest : List Char) (caps : List (Nat × List Char)) :
    run jidTail ⟨p, rest, caps⟩ =
      (parseTail rest).toList.map (fun dom => ⟨p + rest.length, [], (2, dom) :: caps⟩) := by
  cases rest with
  | nil => simp [jidTail, run_seq, run_lit_nil, parseTail]
  | cons c dom =>
    rw [jidTail, run_seq, run_lit_cons]
    by_cases hc : c = '@'
    · subst hc
      by_cases hd : dom = whatsappDomain ∨ dom = hostedDomain
      · simp [run_domains_eol, parseTail, hd, Nat.add_assoc, Nat.add_comm 1]
      · simp [run_domains_eol, parseTail, hd]
    · simp [parseTail, hc]

theorem parseTail_digit (c : Char) (cs : List Char) (hc : c.isDigit = true) :
    parseTail (c :: cs) = none := by
  simp [parseTail, isDigit_ne_at hc]

theorem parseSession_digit (c : Char) (cs : List Char) (hc : c.isDigit = true) :
    parseSession (c :: cs) = none := by
  simp [parseSession, isDigit_ne_colon hc, parseTail_digit c cs hc]

theorem takeWhile_length_add (q : Char → Bool) (l : List Char) :
    (l.takeWhile q).length + (l.dropWhile q).length = l.length := by
  rw [← List.length_append, List.takeWhile_append_dropWhile]

theorem take_takeWhile_length (q : Char → Bool) (l : List Char) :
    l.take (l.takeWhile q).length = l.takeWhile q := by
  have h := List.take_left (l.takeWhile q) (l.dropWhile q)
  rwa [List.takeWhile_append_dropWhile] at h

/-- The part `(?::\d+)?@(s\.whatsapp\.net|hosted)$` of the pattern. -/
theorem run_session_tail (p : Nat) (rest : List Char) (caps : List (Nat × List Char)) :
    run (.seq jidSession jidTail) ⟨p, rest, caps⟩ =
      (parseSession rest).toList.map (fun dom => ⟨p + rest.length, [], (2, dom) :: caps⟩) := by
  have hf : ∀ (t : MState) c cs, t.rest = c :: cs → c.isDigit = true → run jidTail t = [] := by
    rintro ⟨q, r, k⟩ c cs h hc
    simp only at h
    subst h
    simp [run_jidTail, parseTail_digit c cs hc]
  rw [run_seq, jidSession, run_opt, run_ncgroup, run_seq, List.flatMap_append,
    List.flatMap_assoc, List.flatMap_singleton]
  cases rest with
  | nil => simp [run_lit_nil, run_jidTail, parseSession, parseTail]
  | cons c cs =>
    rw [run_lit_cons]
    by_cases hc : c = ':'
    · subst hc
      have h2 : parseTail (':' :: cs) = none := by simp [parseTail]
      rw [if_pos rfl, List.flatMap_singleton, plus_digit_flatMap _ hf]
      simp only [run_jidTail, h2, parseSession, if_pos]
      by_cases hd : cs.takeWhile Char.isDigit = []
      · rw [if_pos hd, if_pos hd]
        simp
      · have hl := takeWhile_length_add Char.isDigit cs
        have hp : p + 1 + (cs.takeWhile Char.isDigit).length + (cs.dropWhile Char.isDigit).length
            = p + (':' :: cs).length := by
          simp only [List.length_cons]
          omega
        rw [if_neg hd, if_neg hd, hp]
        simp
    · simp [run_jidTail, parseSession, hc]

/-- The whole pattern, tried at the start of the subject, reads the subject
the way `parseJid` does. -/
theorem run_jidRegex_zero (jid : List Char) :
    run jidRegex ⟨0, jid, []⟩ =
      (parseJid jid).toList.map (fun r => ⟨jid.length, [], [(2, r.2), (1, r.1)]⟩) := by
  have hf : ∀ (t : MState) c cs, t.rest = c :: cs → c.isDigit = true →
      run (.seq jidSession jidTail)
        { t with caps := (1, jid.take (t.pos - 0)) :: t.caps } = [] := by
    rintro ⟨q, r, k⟩ c cs h hc
    simp only at h
    subst h
    simp [run_session_tail, parseSession_digit c cs hc]
  rw [jidRegex, run_seq, run_bol, if_pos rfl, List.flatMap_singleton, run_seq, run_group,
    List.flatMap_map, plus_digit_flatMap _ hf]
  simp only [parseJid]
  by_cases hd : jid.takeWhile Char.isDigit = []
  · rw [if_pos hd, if_pos hd]
    simp
  · have hl := takeWhile_length_add Char.isDigit jid
    rw [if_neg hd, if_neg hd, run_session_tail]
    simp only [Nat.zero_add, Nat.sub_zero, take_takeWhile_length, hl]
    cases parseSession (jid.dropWhile Char.isDigit) <;> simp

/-- The pattern is anchored: it matches nowhere but at the start. -/
theorem run_jidRegex_pos (p : Nat) (hp : 0 < p) (rest : List Char) :
    run jidRegex ⟨p, rest, []⟩ = [] := by
  have h : ¬ p = 0 := by omega
  rw [jidRegex, run_seq, run_bol]
  simp [h]

theorem searchFrom_jidRegex_pos (rest : List Char) (p : Nat) (hp : 0 < p) :
    searchFrom jidRegex p rest = none := by
  induction rest generalizing p with
  | nil => simp [searchFrom, run_jidRegex_pos p hp]
  | cons c cs ih => simp [searchFrom, run_jidRegex_pos p hp, ih (p + 1) (by omega)]

theorem markCount_jidRegex : jidRegex.markCount = 2 := by decide

/-- The search of the handler finds what `parseJid` reads. -/
theorem regex_search_jidRegex (jid : List Char) :
    regex_search jid jidRegex =
      (parseJid jid).map (fun r => { size := 3, caps := [(2, r.2), (1, r.1)] }) := by
  unfold regex_search
  cases jid with
  | nil => simp [searchFrom, run_jidRegex_zero, parseJid]
  | cons c cs =>
    rw [searchFrom, run_jidRegex_zero, searchFrom_jidRegex_pos cs 1 (by omega)]
    cases parseJid (c :: cs) <;> simp [markCount_jidRegex]

/-- The handler in terms of the direct reading of the identifier. -/
theorem JidToE164_eq (request : JidToE164Request) :
    JidToE164 request =
      (Status.OK,
        { e164 := match parseJid request.jid.data with
            | some r => "+" ++ String.mk r.1
            | none => "" }) := by
  unfold JidToE164
  simp only [regex_search_jidRegex]
  cases parseJid request.jid.data <;>
    simp [SMatch.str, JidToE164Response.set_e164, List.lookup]

/-! ## The direct reading and the form of the specification -/

theorem parseTail_eq_some (r dom : List Char) :
    parseTail r = some dom ↔
      r = '@' :: dom ∧ (dom = whatsappDomain ∨ dom = hostedDomain) := by
  cases r with
  | nil => simp [parseTail]
  | cons c cs =>
    by_cases h : c = '@' ∧ (cs = whatsappDomain ∨ cs = hostedDomain)
    · simp only [parseTail, if_pos h, Option.some.injEq, List.cons.injEq]
      constructor
      · rintro rfl
        exact ⟨⟨h.1, rfl⟩, h.2⟩
      · rintro ⟨⟨_, h2⟩, _⟩
        exact h2
    · simp only [parseTail, if_neg h, List.cons.injEq]
      constructor
      · intro h2
        cases h2
      · rintro ⟨⟨h1, rfl⟩, h3⟩
        exact absurd ⟨h1, h3⟩ h

theorem allDigits_takeWhile (l : List Char) : AllDigits (l.takeWhile Char.isDigit) :=
  fun _ hc => List.mem_takeWhile_imp hc

/-- A string of the specified form is read as its leading digits and its
domain. -/
theorem parseJid_of_isJid {jid d s dom : List Char} (h : IsJid jid d s dom) :
    parseJid jid = some (d, dom) := by
  obtain ⟨hd, hdig, hs, hdom, rfl⟩ := h
  have hdom2 : dom = whatsappDomain ∨ dom = hostedDomain := hdom
  have htail : parseTail ('@' :: dom) = some dom := (parseTail_eq_some _ _).mpr ⟨rfl, hdom2⟩
  have hat : ¬ ('@' : Char).isDigit = true := by decide
  have hcol : ¬ (':' : Char).isDigit = true := by decide
  rcases hs with rfl | ⟨t, ht, htdig, rfl⟩
  · have h1 : (d ++ [] ++ '@' :: dom).takeWhile Char.isDigit = d := by
      simp [List.takeWhile_append_of_pos hdig, List.takeWhile_cons, hat]
    have h2 : (d ++ [] ++ '@' :: dom).dropWhile Char.isDigit = '@' :: dom := by
      simp [List.dropWhile_append_of_pos hdig, List.dropWhile_cons, hat]
    have h3 : parseSession ('@' :: dom) = some dom := by
      have : ¬ ('@' : Char) = ':' := by decide
      simp only [parseSession, if_neg this, htail]
    simp only [parseJid, h1, h2, h3, if_neg hd, Option.map_some']
  · have h1 : (d ++ ':' :: t ++ '@' :: dom).takeWhile Char.isDigit = d := by
      simp [List.takeWhile_append_of_pos hdig, List.takeWhile_cons, hcol]
    have h2 : (d ++ ':' :: t ++ '@' :: dom).dropWhile Char.isDigit = ':' :: (t ++ '@' :: dom) := by
      simp [List.dropWhile_append_of_pos hdig, List.dropWhile_cons, hcol]
    have h4 : (t ++ '@' :: dom).takeWhile Char.isDigit = t := by
      simp [List.takeWhile_append_of_pos htdig, List.takeWhile_cons, hat]
    have h5 : (t ++ '@' :: dom).dropWhile Char.isDigit = '@' :: dom := by
      simp [List.dropWhile_append_of_pos htdig, List.dropWhile_cons, hat]
    have h3 : parseSession (':' :: (t ++ '@' :: dom)) = some dom := by
      simp only [parseSession, if_pos, h4, h5, if_neg ht, htail]
    simp only [parseJid, h1, h2, h3, if_neg hd, Option.map_some']

/-- What is read from a string shows that the string has the specified
form, the digits read being its maximal leading run of digits. -/
theorem isJid_of_parseJid {jid d dom : List Char} (h : parseJid jid = some (d, dom)) :
    d = jid.takeWhile Char.isDigit ∧ ∃ s, IsJid jid d s dom := by
  unfold parseJid at h
  by_cases hd : jid.takeWhile Char.isDigit = []
  · rw [if_pos hd] at h
    cases h
  · rw [if_neg hd] at h
    have hsplit := List.takeWhile_append_dropWhile Char.isDigit jid
    cases hr : jid.dropWhile Char.isDigit with
    | nil => simp [hr, parseSession] at h
    | cons c cs =>
      rw [hr] at h hsplit
      by_cases hc : c = ':'
      · subst hc
        simp only [parseSession, if_pos] at h
        by_cases ht : cs.takeWhile Char.isDigit = []
        · rw [if_pos ht] at h
          simp at h
        · rw [if_neg ht] at h
          cases hp : parseTail (cs.dropWhile Char.isDigit) with
          | none => simp [hp] at h
          | some dom2 =>
            rw [hp] at h
            simp only [Option.map_some', Option.some.injEq, Prod.mk.injEq] at h
            obtain ⟨h1, h2⟩ := h
            subst h2
            obtain ⟨hcs, hdom⟩ := (parseTail_eq_some _ _).mp hp
            refine ⟨h1.symm, ':' :: cs.takeWhile Char.isDigit, ?_⟩
            refine ⟨h1 ▸ hd, h1 ▸ allDigits_takeWhile jid,
              Or.inr ⟨_, ht, allDigits_takeWhile cs, rfl⟩, hdom, ?_⟩
            have hcs2 := List.takeWhile_append_dropWhile Char.isDigit cs
            rw [hcs] at hcs2
            rw [← h1]
            conv_lhs => rw [← hsplit, ← hcs2]
            simp
      · simp only [parseSession, if_neg hc] at h
        cases hp : parseTail (c :: cs) with
        | none => simp [hp] at h
        | some dom2 =>
          rw [hp] at h
          simp only [Option.map_some', Option.some.injEq, Prod.mk.injEq] at h
          obtain ⟨h1, h2⟩ := h
          subst h2
          obtain ⟨hcs, hdom⟩ := (parseTail_eq_some _ _).mp hp
          refine ⟨h1.symm, [], ?_⟩
          refine ⟨h1 ▸ hd, h1 ▸ allDigits_takeWhile jid, Or.inl rfl, hdom, ?_⟩
          rw [← h1]
          conv_lhs => rw [← hsplit, hcs]
          simp

theorem plus_append_ne_empty (x : String) : "+" ++ x ≠ "" := by
  intro h
  have h2 := congrArg String.data h
  simp at h2

/-! ## Properties of `JidToE164` -/

/-- C1: for every non-empty string `d` of ASCII digits, every suffix that is
absent or `:` followed by a non-empty string of ASCII digits, and each of
the two domains, `JidToE164` applied to `d ++ suffix ++ "@" ++ domain`
returns OK with `e164 = "+" ++ d`; the suffix is discarded. -/
theorem JidToE164_leading_digits (d suffix domain : String)
    (hd : d ≠ "") (hdig : AllDigits d.data)
    (hs : suffix = "" ∨ ∃ t : String, t ≠ "" ∧ AllDigits t.data ∧ suffix = ":" ++ t)
    (hdom : domain = "s.whatsapp.net" ∨ domain = "hosted") :
    JidToE164 ⟨d ++ suffix ++ "@" ++ domain⟩ = (Status.OK, { e164 := "+" ++ d }) := by
  have hform : IsJid (d ++ suffix ++ "@" ++ domain).data d.data suffix.data domain.data := by
    refine ⟨fun h => hd (String.ext h), hdig, ?_, ?_, ?_⟩
    · rcases hs with rfl | ⟨t, ht, htdig, rfl⟩
      · exact Or.inl rfl
      · exact Or.inr ⟨t.data, fun h => ht (String.ext h), htdig, by simp⟩
    · rcases hdom with rfl | rfl
      · exact Or.inl rfl
      · exact Or.inr rfl
    · simp
  rw [JidToE164_eq]
  simp only [parseJid_of_isJid hform]

/-- C1, at the three identifiers of the specification. -/
theorem JidToE164_leading_digits_witness :
    JidToE164 ⟨"15551234567" ++ "" ++ "@" ++ "s.whatsapp.net"⟩
        = (Status.OK, { e164 := "+" ++ "15551234567" }) ∧
      JidToE164 ⟨"15551234567" ++ ":99" ++ "@" ++ "s.whatsapp.net"⟩
        = (Status.OK, { e164 := "+" ++ "15551234567" }) ∧
      JidToE164 ⟨"15551234567" ++ "" ++ "@" ++ "hosted"⟩
        = (Status.OK, { e164 := "+" ++ "15551234567" }) :=
  ⟨JidToE164_leading_digits "15551234567" "" "s.whatsapp.net" (by decide) (by decide)
      (Or.inl rfl) (Or.inl rfl),
    JidToE164_leading_digits "15551234567" ":99" "s.whatsapp.net" (by decide) (by decide)
      (Or.inr ⟨"99", by decide, by decide, by decide⟩) (Or.inl rfl),
    JidToE164_leading_digits "15551234567" "" "hosted" (by decide) (by decide)
      (Or.inl rfl) (Or.inr rfl)⟩

/-- C2: `JidToE164` returns a non-empty `e164` if and only if the whole
input has the form `<digits>[":"<digits>]"@"<domain>` with one of the two
domains; for every other string `e164` is empty.  Both sample strings of
the specification give the empty string. -/
theorem JidToE164_nonempty_iff :
    (∀ jid : String,
      ((JidToE164 ⟨jid⟩).2.e164 ≠ "" ↔ ∃ d s dom, IsJid jid.data d s dom) ∧
      ((¬ ∃ d s dom, IsJid jid.data d s dom) → JidToE164 ⟨jid⟩ = (Status.OK, { e164 := "" }))) ∧
    JidToE164 ⟨"abc@s.whatsapp.net"⟩ = (Status.OK, { e164 := "" }) ∧
    JidToE164 ⟨"15551234567@other.domain"⟩ = (Status.OK, { e164 := "" }) := by
  refine ⟨fun jid => ?_, by decide, by decide⟩
  rw [JidToE164_eq]
  cases hp : parseJid jid.data with
  | none =>
    have hno : ¬ ∃ d s dom, IsJid jid.data d s dom := by
      rintro ⟨d, s, dom, h⟩
      rw [parseJid_of_isJid h] at hp
      cases hp
    simp [hno]
  | some r =>
    obtain ⟨d, dom⟩ := r
    have hyes : ∃ d s dom, IsJid jid.data d s dom := by
      obtain ⟨_, s, h⟩ := isJid_of_parseJid hp
      exact ⟨d, s, dom, h⟩
    simp [hyes, plus_append_ne_empty]

/-- C10: for every input, the `e164` returned is empty or `"+"` followed by
a non-empty string of ASCII digits, which is then the maximal leading run
of digits of the input, a prefix of the input followed there by `:` or
`@`; all its characters occur in the input. -/
theorem JidToE164_output_wellFormed (jid : String) :
    (JidToE164 ⟨jid⟩).2.e164 = "" ∨
      ∃ ds : List Char, (JidToE164 ⟨jid⟩).2.e164 = "+" ++ String.mk ds ∧
        ds ≠ [] ∧ AllDigits ds ∧ ds = jid.data.takeWhile Char.isDigit ∧
        (∃ c r, jid.data = ds ++ c :: r ∧ (c = ':' ∨ c = '@')) ∧
        (∀ c ∈ ds, c ∈ jid.data ∧ c ≠ ':' ∧ c ≠ '@') := by
  rw [JidToE164_eq]
  cases hp : parseJid jid.data with
  | none => exact Or.inl rfl
  | some r =>
    obtain ⟨d, dom⟩ := r
    obtain ⟨hmax, s, hd, hdig, hs, _, hjid⟩ := isJid_of_parseJid hp
    refine Or.inr ⟨d, rfl, hd, hdig, hmax, ?_, ?_⟩
    · rcases hs with rfl | ⟨t, _, _, rfl⟩
      · exact ⟨'@', dom, by simpa using hjid, Or.inr rfl⟩
      · exact ⟨':', t ++ '@' :: dom, by simpa using hjid, Or.inl rfl⟩
    · intro c hc
      refine ⟨?_, isDigit_ne_colon (hdig c hc), isDigit_ne_at (hdig c hc)⟩
      rw [hjid]
      simp [hc]

/-! ## Lemmas on the comparisons of doubles -/

namespace Double

theorem toExt?_of_not_nan {a : Double} (h : a.isNaN = false) : ∃ x, a.toExt? = some x := by
  cases a <;> simp [isNaN, toExt?] at h ⊢

theorem toExt?_eq_none {a : Double} : a.toExt? = none ↔ a.isNaN = true := by
  cases a <;> simp [isNaN, toExt?]

theorem lt_nan_left (b : Double) : lt nan b = false := rfl

theorem lt_nan_right (a : Double) : lt a nan = false := by
  cases a <;> rfl

theorem lt_iff {a b : Double} {x y : WithBot (WithTop ℚ)} (ha : a.toExt? = some x)
    (hb : b.toExt? = some y) : lt a b = true ↔ x < y := by
  simp [lt, ha, hb]

theorem le_iff {a b : Double} {x y : WithBot (WithTop ℚ)} (ha : a.toExt? = some x)
    (hb : b.toExt? = some y) : le a b = true ↔ x ≤ y := by
  simp [le, ha, hb]

theorem eq_iff {a b : Double} {x y : WithBot (WithTop ℚ)} (ha : a.toExt? = some x)
    (hb : b.toExt? = some y) : eq a b = true ↔ x = y := by
  simp [eq, ha, hb]

theorem not_nan_of_lt {a b : Double} (h : lt a b = true) : a.isNaN = false ∧ b.isNaN = false := by
  cases a <;> cases b <;> simp_all [lt, isNaN, toExt?]

theorem not_nan_of_le {a b : Double} (h : le a b = true) : a.isNaN = false ∧ b.isNaN = false := by
  cases a <;> cases b <;> simp_all [le, isNaN, toExt?]

/-- Two doubles that compare equal are the same double, or are both zeros. -/
theorem eq_or_zeros {a b : Double} (h : eq a b = true) :
    a = b ∨ (a.isZero = true ∧ b.isZero = true) := by
  cases a <;> cases b <;>
    simp_all [eq, isZero, toExt?, -WithTop.coe_zero, -WithBot.coe_zero, -WithTop.coe_eq_zero,
      -WithBot.coe_eq_zero, -WithTop.zero_eq_coe, -WithBot.zero_eq_coe]

theorem toExt?_of_toRat? {a : Double} {q : ℚ} (h : a.toRat? = some q) :
    a.toExt? = some ((q : WithTop ℚ) : WithBot (WithTop ℚ)) := by
  cases a <;> simp_all [toRat?, toExt?]

theorem toRat?_of_toExt? {a : Double} {q : ℚ}
    (h : a.toExt? = some ((q : WithTop ℚ) : WithBot (WithTop ℚ))) : a.toRat? = some q := by
  cases a <;>
    simp_all [toRat?, toExt?, -WithTop.coe_zero, -WithBot.coe_zero, -WithTop.coe_eq_zero,
      -WithBot.coe_eq_zero, -WithTop.zero_eq_coe, -WithBot.zero_eq_coe]

/-- A point of the extended line between two rationals is a rational. -/
theorem finite_between (e : WithBot (WithTop ℚ)) (a b : ℚ)
    (h1 : ((a : WithTop ℚ) : WithBot (WithTop ℚ)) ≤ e)
    (h2 : e ≤ ((b : WithTop ℚ) : WithBot (WithTop ℚ))) :
    ∃ c : ℚ, e = ((c : WithTop ℚ) : WithBot (WithTop ℚ)) ∧ a ≤ c ∧ c ≤ b := by
  induction e using WithBot.recBotCoe with
  | bot => simp at h1
  | coe w =>
    induction w using WithTop.recTopCoe with
    | top => simp at h2
    | coe c =>
      refine ⟨c, rfl, ?_, ?_⟩
      · exact_mod_cast h1
      · exact_mod_cast h2

end Double

/-! ## Lemmas on `ClampNumber` -/

theorem ClampNumber_eq (request : ClampNumberRequest) :
    ClampNumber request =
      (Status.OK, { result := std_max request.min (std_min request.max request.value) }) := rfl

/-- On values other than NaN, `std::max(mn, std::min(mx, v))` is one of its
three arguments and denotes the clamp of the extended number line. -/
theorem clamp_toExt? {v mn mx : Double} {x y z : WithBot (WithTop ℚ)}
    (hv : v.toExt? = some x) (hmn : mn.toExt? = some y) (hmx : mx.toExt? = some z) :
    (std_max mn (std_min mx v)).toExt? = some (max y (min z x)) ∧
      (std_max mn (std_min mx v) = v ∨ std_max mn (std_min mx v) = mn ∨
        std_max mn (std_min mx v) = mx) := by
  by_cases h1 : x < z
  · have e1 : std_min mx v = v := by simp [std_min, Double.lt_iff hv hmx, h1]
    rw [e1]
    by_cases h2 : y < x
    · have e2 : std_max mn v = v := by simp [std_max, Double.lt_iff hmn hv, h2]
      rw [e2, hv, min_eq_right h1.le, max_eq_right h2.le]
      exact ⟨rfl, Or.inl rfl⟩
    · have e2 : std_max mn v = mn := by simp [std_max, Double.lt_iff hmn hv, h2]
      rw [e2, hmn, min_eq_right h1.le, max_eq_left (not_lt.mp h2)]
      exact ⟨rfl, Or.inr (Or.inl rfl)⟩
  · have e1 : std_min mx v = mx := by simp [std_min, Double.lt_iff hv hmx, h1]
    rw [e1]
    by_cases h2 : y < z
    · have e2 : std_max mn mx = mx := by simp [std_max, Double.lt_iff hmn hmx, h2]
      rw [e2, hmx, min_eq_left (not_lt.mp h1), max_eq_right h2.le]
      exact ⟨rfl, Or.inr (Or.inr rfl)⟩
    · have e2 : std_max mn mx = mn := by simp [std_max, Double.lt_iff hmn hmx, h2]
      rw [e2, hmn, min_eq_left (not_lt.mp h1), max_eq_left (not_lt.mp h2)]
      exact ⟨rfl, Or.inr (Or.inl rfl)⟩

/-- The clamp of `x` into `[y, z]` lies between `x` and every point `c` of
`[y, z]`. -/
theorem clamp_between {x y z c : WithBot (WithTop ℚ)} (hyc : y ≤ c) (hcz : c ≤ z) :
    (x ≤ max y (min z x) ∧ max y (min z x) ≤ c) ∨
      (c ≤ max y (min z x) ∧ max y (min z x) ≤ x) := by
  rcases le_total x c with hle | hle
  · exact Or.inl ⟨le_max_of_le_right (le_min (hle.trans hcz) le_rfl),
      max_le hyc ((min_le_right _ _).trans hle)⟩
  · exact Or.inr ⟨le_max_of_le_right (le_min hcz hle),
      max_le (hyc.trans hle) (min_le_right _ _)⟩

/-- When `mx < mn`, the inner `std::min(mx, v)` stays below `mn` and the
outer `std::max` returns `mn`, whatever `v` is (a NaN included). -/
theorem clamp_degenerate {v mn mx : Double} (h : Double.lt mx mn = true) :
    Double.lt (std_min mx v) mn = true ∧ std_max mn (std_min mx v) = mn := by
  obtain ⟨hmx, hmn⟩ := Double.not_nan_of_lt h
  obtain ⟨y, hy⟩ := Double.toExt?_of_not_nan hmn
  obtain ⟨z, hz⟩ := Double.toExt?_of_not_nan hmx
  have hzy : z < y := (Double.lt_iff hz hy).mp h
  have key : ∀ w : Double, Double.lt w mn = true → std_max mn w = mn := by
    intro w hw
    obtain ⟨hwn, _⟩ := Double.not_nan_of_lt hw
    obtain ⟨x, hx⟩ := Double.toExt?_of_not_nan hwn
    have hxy : x < y := (Double.lt_iff hx hy).mp hw
    have : ¬ Double.lt mn w = true := by
      rw [Double.lt_iff hy hx]
      exact not_lt.mpr hxy.le
    simp [std_max, this]
  have inner : Double.lt (std_min mx v) mn = true := by
    by_cases h1 : Double.lt v mx = true
    · obtain ⟨hvn, _⟩ := Double.not_nan_of_lt h1
      obtain ⟨x, hx⟩ := Double.toExt?_of_not_nan hvn
      have hxz : x < z := (Double.lt_iff hx hz).mp h1
      simp only [std_min, h1, if_true]
      exact (Double.lt_iff hx hy).mpr (hxz.trans hzy)
    · simp only [std_min, h1, if_false]
      exact h
  exact ⟨inner, key _ inner⟩

/-! ## Properties of `ClampNumber` -/

/-- C3: for all `value`, `min`, `max` other than NaN with `min ≤ max`,
`ClampNumber` returns OK with `min ≤ result ≤ max`, and when
`min ≤ value ≤ max` the result compares equal to `value`: it is `value`
itself, unless both are zeros (which may differ in sign). -/
theorem ClampNumber_in_range (v mn mx : Double)
    (hv : v.isNaN = false) (hmn : mn.isNaN = false) (hmx : mx.isNaN = false)
    (h : Double.le mn mx = true) :
    (ClampNumber ⟨v, mn, mx⟩).1 = Status.OK ∧
      Double.le mn (ClampNumber ⟨v, mn, mx⟩).2.result = true ∧
      Double.le (ClampNumber ⟨v, mn, mx⟩).2.result mx = true ∧
      (Double.le mn v = true → Double.le v mx = true →
        Double.eq (ClampNumber ⟨v, mn, mx⟩).2.result v = true ∧
        ((ClampNumber ⟨v, mn, mx⟩).2.result = v ∨
          ((ClampNumber ⟨v, mn, mx⟩).2.result.isZero = true ∧ v.isZero = true))) := by
  obtain ⟨x, hx⟩ := Double.toExt?_of_not_nan hv
  obtain ⟨y, hy⟩ := Double.toExt?_of_not_nan hmn
  obtain ⟨z, hz⟩ := Double.toExt?_of_not_nan hmx
  have hyz : y ≤ z := (Double.le_iff hy hz).mp h
  obtain ⟨hr, _⟩ := clamp_toExt? hx hy hz
  rw [ClampNumber_eq]
  refine ⟨rfl, ?_, ?_, ?_⟩
  · exact (Double.le_iff hy hr).mpr (le_max_left _ _)
  · exact (Double.le_iff hr hz).mpr (max_le hyz (min_le_left _ _))
  · intro h1 h2
    have hyx : y ≤ x := (Double.le_iff hy hx).mp h1
    have hxz : x ≤ z := (Double.le_iff hx hz).mp h2
    have he : Double.eq (std_max mn (std_min mx v)) v = true := by
      rw [Double.eq_iff hr hx, min_eq_right hxz, max_eq_right hyx]
    exact ⟨he, Double.eq_or_zeros he⟩

/-- C3, at `value = 5.0`, `min = 0.0`, `max = 10.0`: the result is `5.0`. -/
theorem ClampNumber_in_range_witness :
    (ClampNumber ⟨.fin 5, .fin 0, .fin 10⟩).2.result = .fin 5 ∧
      Double.le (.fin 0) (ClampNumber ⟨.fin 5, .fin 0, .fin 10⟩).2.result = true ∧
      Double.le (ClampNumber ⟨.fin 5, .fin 0, .fin 10⟩).2.result (.fin 10) = true :=
  ⟨by decide,
    (ClampNumber_in_range (.fin 5) (.fin 0) (.fin 10) (by decide) (by decide) (by decide)
      (by decide)).2.1,
    (ClampNumber_in_range (.fin 5) (.fin 0) (.fin 10) (by decide) (by decide) (by decide)
      (by decide)).2.2.1⟩

/-- C4: for all `value`, `min`, `max` other than NaN with `min ≤ max`, the
result compares equal to `max` when `value > max` and to `min` when
`value < min` (it is that bound itself, unless both are zeros), and it is
the point of `[min, max]` nearest to `value`: for every `x` with
`min ≤ x ≤ max` the result lies between `value` and `x`, so that for finite
`value` and `x` the result is finite and `|result - value| ≤ |x - value|`. -/
theorem ClampNumber_nearest (v mn mx : Double)
    (hv : v.isNaN = false) (hmn : mn.isNaN = false) (hmx : mx.isNaN = false)
    (h : Double.le mn mx = true) :
    (Double.lt mx v = true →
        Double.eq (ClampNumber ⟨v, mn, mx⟩).2.result mx = true ∧
        ((ClampNumber ⟨v, mn, mx⟩).2.result = mx ∨
          ((ClampNumber ⟨v, mn, mx⟩).2.result.isZero = true ∧ mx.isZero = true))) ∧
      (Double.lt v mn = true →
        Double.eq (ClampNumber ⟨v, mn, mx⟩).2.result mn = true ∧
        ((ClampNumber ⟨v, mn, mx⟩).2.result = mn ∨
          ((ClampNumber ⟨v, mn, mx⟩).2.result.isZero = true ∧ mn.isZero = true))) ∧
      (∀ x : Double, Double.le mn x = true → Double.le x mx = true →
        (Double.le v (ClampNumber ⟨v, mn, mx⟩).2.result = true ∧
            Double.le (ClampNumber ⟨v, mn, mx⟩).2.result x = true) ∨
          (Double.le x (ClampNumber ⟨v, mn, mx⟩).2.result = true ∧
            Double.le (ClampNumber ⟨v, mn, mx⟩).2.result v = true)) ∧
      (∀ (x : Double) (qv qx : ℚ), v.toRat? = some qv → x.toRat? = some qx →
        Double.le mn x = true → Double.le x mx = true →
        ∃ qr : ℚ, (ClampNumber ⟨v, mn, mx⟩).2.result.toRat? = some qr ∧
          |qr - qv| ≤ |qx - qv|) := by
  obtain ⟨x, hx⟩ := Double.toExt?_of_not_nan hv
  obtain ⟨y, hy⟩ := Double.toExt?_of_not_nan hmn
  obtain ⟨z, hz⟩ := Double.toExt?_of_not_nan hmx
  have hyz : y ≤ z := (Double.le_iff hy hz).mp h
  obtain ⟨hr, _⟩ := clamp_toExt? hx hy hz
  rw [ClampNumber_eq]
  refine ⟨?_, ?_, ?_, ?_⟩
  · intro h1
    have hzx : z < x := (Double.lt_iff hz hx).mp h1
    have he : Double.eq (std_max mn (std_min mx v)) mx = true := by
      rw [Double.eq_iff hr hz, min_eq_left hzx.le, max_eq_right hyz]
    exact ⟨he, Double.eq_or_zeros he⟩
  · intro h1
    have hxy : x < y := (Double.lt_iff hx hy).mp h1
    have he : Double.eq (std_max mn (std_min mx v)) mn = true := by
      rw [Double.eq_iff hr hy, min_eq_right (hxy.le.trans hyz), max_eq_left hxy.le]
    exact ⟨he, Double.eq_or_zeros he⟩
  · intro c h1 h2
    obtain ⟨k, hk⟩ := Double.toExt?_of_not_nan (Double.not_nan_of_le h1).2
    have hyc : y ≤ k := (Double.le_iff hy hk).mp h1
    have hcz : k ≤ z := (Double.le_iff hk hz).mp h2
    rcases clamp_between (x := x) hyc hcz with ⟨lo, hi⟩ | ⟨lo, hi⟩
    · exact Or.inl ⟨(Double.le_iff hx hr).mpr lo, (Double.le_iff hr hk).mpr hi⟩
    · exact Or.inr ⟨(Double.le_iff hk hr).mpr lo, (Double.le_iff hr hx).mpr hi⟩
  · intro c qv qx hqv hqx h1 h2
    have hx2 := Double.toExt?_of_toRat? hqv
    rw [hx] at hx2
    have hx3 : x = ((qv : WithTop ℚ) : WithBot (WithTop ℚ)) := Option.some.inj hx2
    subst hx3
    have hc := Double.toExt?_of_toRat? hqx
    have hyc : y ≤ ((qx : WithTop ℚ) : WithBot (WithTop ℚ)) := (Double.le_iff hy hc).mp h1
    have hcz : ((qx : WithTop ℚ) : WithBot (WithTop ℚ)) ≤ z := (Double.le_iff hc hz).mp h2
    rcases clamp_between (x := ((qv : WithTop ℚ) : WithBot (WithTop ℚ))) hyc hcz with
      ⟨lo, hi⟩ | ⟨lo, hi⟩
    · obtain ⟨qr, hqr, h3, h4⟩ := Double.finite_between _ qv qx lo hi
      rw [hqr] at hr
      refine ⟨qr, Double.toRat?_of_toExt? hr, ?_⟩
      rw [abs_of_nonneg (by linarith), abs_of_nonneg (by linarith)]
      linarith
    · obtain ⟨qr, hqr, h3, h4⟩ := Double.finite_between _ qx qv lo hi
      rw [hqr] at hr
      refine ⟨qr, Double.toRat?_of_toExt? hr, ?_⟩
      rw [abs_of_nonpos (by linarith), abs_of_nonpos (by linarith)]
      linarith

/-- C4, at `ClampNumber(15.0, 0.0, 10.0) = 10.0` and
`ClampNumber(-5.0, 0.0, 10.0) = 0.0`. -/
theorem ClampNumber_nearest_witness :
    ((ClampNumber ⟨.fin 15, .fin 0, .fin 10⟩).2.result = .fin 10 ∧
      Double.eq (ClampNumber ⟨.fin 15, .fin 0, .fin 10⟩).2.result (.fin 10) = true) ∧
    ((ClampNumber ⟨.fin (-5), .fin 0, .fin 10⟩).2.result = .fin 0 ∧
      Double.eq (ClampNumber ⟨.fin (-5), .fin 0, .fin 10⟩).2.result (.fin 0) = true) :=
  ⟨⟨by decide,
      ((ClampNumber_nearest (.fin 15) (.fin 0) (.fin 10) (by decide) (by decide) (by decide)
        (by decide)).1 (by decide)).1⟩,
    ⟨by decide,
      ((ClampNumber_nearest (.fin (-5)) (.fin 0) (.fin 10) (by decide) (by decide) (by decide)
        (by decide)).2.1 (by decide)).1⟩⟩

/-- C5: for all `min > max` (so neither is a NaN) and for every `value`,
`ClampNumber(value, min, max)` returns OK with `result = min`. -/
theorem ClampNumber_degenerate_returns_min (v mn mx : Double)
    (h : Double.lt mx mn = true) :
    ClampNumber ⟨v, mn, mx⟩ = (Status.OK, { result := mn }) := by
  rw [ClampNumber_eq]
  simp only [(clamp_degenerate (v := v) h).2]

/-- C5, at `ClampNumber(5.0, 10.0, 0.0) = 10.0`. -/
theorem ClampNumber_degenerate_returns_min_witness :
    Double.lt (.fin 0) (.fin 10) = true ∧
      ClampNumber ⟨.fin 5, .fin 10, .fin 0⟩ = (Status.OK, { result := .fin 10 }) :=
  ⟨by decide, ClampNumber_degenerate_returns_min (.fin 5) (.fin 10) (.fin 0) (by decide)⟩

/-- C6 fails as stated: with `min = 10.0 > max = 0.0` and `value = 5.0` the
result is `10.0`, which is `min`, and does not compare equal to `max`. -/
theorem ClampNumber_degenerate_returns_max_counterexample :
    Double.lt (.fin 0) (.fin 10) = true ∧
      (ClampNumber ⟨.fin 5, .fin 10, .fin 0⟩).2.result = .fin 10 ∧
      (ClampNumber ⟨.fin 5, .fin 10, .fin 0⟩).2.result ≠ .fin 0 ∧
      Double.eq (ClampNumber ⟨.fin 5, .fin 10, .fin 0⟩).2.result (.fin 0) = false := by
  decide

/-- C6, amended: for all `min > max` and every `value`, the result is
`max(min, min(max, value))` taken literally; the inner `min(max, value)` is
below `min`, so the outer `max` yields `min`, and the result is greater
than `max` and never compares equal to it. -/
theorem ClampNumber_degenerate_formula (v mn mx : Double)
    (h : Double.lt mx mn = true) :
    (ClampNumber ⟨v, mn, mx⟩).2.result = std_max mn (std_min mx v) ∧
      Double.lt (std_min mx v) mn = true ∧
      (ClampNumber ⟨v, mn, mx⟩).2.result = mn ∧
      Double.lt mx (ClampNumber ⟨v, mn, mx⟩).2.result = true ∧
      Double.eq (ClampNumber ⟨v, mn, mx⟩).2.result mx = false := by
  obtain ⟨h1, h2⟩ := clamp_degenerate (v := v) h
  obtain ⟨hmx, hmn⟩ := Double.not_nan_of_lt h
  obtain ⟨y, hy⟩ := Double.toExt?_of_not_nan hmn
  obtain ⟨z, hz⟩ := Double.toExt?_of_not_nan hmx
  have hzy : z < y := (Double.lt_iff hz hy).mp h
  rw [ClampNumber_eq]
  refine ⟨rfl, h1, h2, ?_, ?_⟩
  · simp only [h2, h]
  · simp only [h2]
    cases he : Double.eq mn mx with
    | false => rfl
    | true => exact absurd ((Double.eq_iff hy hz).mp he) (ne_of_gt hzy)

/-- C6 amended, at `value = 5.0`, `min = 10.0`, `max = 0.0`. -/
theorem ClampNumber_degenerate_formula_witness :
    Double.lt (.fin 0) (.fin 10) = true ∧
      (ClampNumber ⟨.fin 5, .fin 10, .fin 0⟩).2.result = .fin 10 :=
  ⟨by decide,
    (ClampNumber_degenerate_formula (.fin 5) (.fin 10) (.fin 0) (by decide)).2.2.1⟩

/-- C7 fails as stated: with a NaN `min` (and `value = 5.0`, `max = 10.0`)
the result is a NaN; and with a NaN `max` the inner `std::min` returns the
NaN, not the other operand. -/
theorem ClampNumber_nan_min_is_nan_counterexample :
    (ClampNumber ⟨.fin 5, .nan, .fin 10⟩).2.result = .nan ∧
      (ClampNumber ⟨.fin 5, .nan, .fin 10⟩).2.result.isNaN = true ∧
      std_min .nan (.fin 5) = .nan := by
  decide

/-- C7, amended: `std::min` and `std::max` return their first argument as
soon as one argument is a NaN, so the operand other than the NaN is
preferred only when the NaN is the second argument.  With exactly one NaN
among `value`, `min`, `max`: for a NaN `value` the inner step yields `max`
and the result is `std::max(min, max)`, not a NaN; for a NaN `max` the
inner step yields the NaN and the outer step yields `min`, not a NaN; for a
NaN `min` the result is the NaN. -/
theorem ClampNumber_single_nan (a b : Double) (ha : a.isNaN = false) (hb : b.isNaN = false) :
    (std_min a .nan = a ∧ std_max a .nan = a ∧ std_min .nan a = .nan ∧ std_max .nan a = .nan) ∧
      ((ClampNumber ⟨.nan, a, b⟩).2.result = std_max a b ∧
        (ClampNumber ⟨.nan, a, b⟩).2.result.isNaN = false) ∧
      ((ClampNumber ⟨a, b, .nan⟩).2.result = b ∧
        (ClampNumber ⟨a, b, .nan⟩).2.result.isNaN = false) ∧
      ((ClampNumber ⟨a, .nan, b⟩).2.result = .nan ∧
        (ClampNumber ⟨a, .nan, b⟩).2.result.isNaN = true) := by
  have m1 : ∀ c : Double, std_min c .nan = c := fun c => by
    simp [std_min, Double.lt_nan_left]
  have m2 : ∀ c : Double, std_max c .nan = c := fun c => by
    simp [std_max, Double.lt_nan_right]
  have m3 : ∀ c : Double, std_min .nan c = .nan := fun c => by
    simp [std_min, Double.lt_nan_right]
  have m4 : ∀ c : Double, std_max .nan c = .nan := fun c => by
    simp [std_max, Double.lt_nan_left]
  have hab : (std_max a b).isNaN = false := by
    unfold std_max
    split <;> assumption
  simp only [ClampNumber_eq, m1, m2, m3, m4]
  exact ⟨⟨trivial, trivial, trivial, trivial⟩, ⟨trivial, hab⟩, ⟨trivial, hb⟩, trivial, rfl⟩

/-- C7 amended, at the operands `0.0` and `10.0`. -/
theorem ClampNumber_single_nan_witness :
    (ClampNumber ⟨.nan, .fin 0, .fin 10⟩).2.result.isNaN = false ∧
      (ClampNumber ⟨.fin 0, .fin 10, .nan⟩).2.result = .fin 10 ∧
      (ClampNumber ⟨.fin 0, .nan, .fin 10⟩).2.result = .nan :=
  ⟨(ClampNumber_single_nan (.fin 0) (.fin 10) (by decide) (by decide)).2.1.2,
    (ClampNumber_single_nan (.fin 0) (.fin 10) (by decide) (by decide)).2.2.1.1,
    (ClampNumber_single_nan (.fin 0) (.fin 10) (by decide) (by decide)).2.2.2.1⟩

/-! ## Properties of `EnsureDir` -/

/-- C8: for every directory-creation primitive, every path and every state,
the handler returns OK whatever the outcome of the primitive (nothing is
propagated) and leaves the state the primitive left; `success` is true
exactly when the primitive returned normally; on an exception `success`
is false and `error` is the message of the exception; on success `error`
is left empty. -/
theorem EnsureDir_failure_as_data {σ : Type} (create_directories : σ → String → Outcome × σ)
    (request : EnsureDirRequest) (fs : σ) :
    (EnsureDir create_directories request fs).1.1 = Status.OK ∧
      (EnsureDir create_directories request fs).2 = (create_directories fs request.path).2 ∧
      ((EnsureDir create_directories request fs).1.2.success = true ↔
        ∃ b, (create_directories fs request.path).1 = Outcome.returned b) ∧
      ((EnsureDir create_directories request fs).1.2.success = false ↔
        ∃ what, (create_directories fs request.path).1 = Outcome.threw what) ∧
      (∀ what, (create_directories fs request.path).1 = Outcome.threw what →
        (EnsureDir create_directories request fs).1.2 = { success := false, error := what }) ∧
      ((EnsureDir create_directories request fs).1.2.success = true →
        (EnsureDir create_directories request fs).1.2.error = "") := by
  unfold EnsureDir
  rcases hc : create_directories fs request.path with ⟨o, fs'⟩
  cases o with
  | returned b => simp [EnsureDirResponse.set_success]
  | threw what => simp [EnsureDirResponse.set_success, EnsureDirResponse.set_error]

/-! ## Lemmas on the file system -/

namespace FileSystem

theorem lookup_mem {k : Location} {v : Node} :
    ∀ {es : List (Location × Node)}, es.lookup k = some v → (k, v) ∈ es
  | [], h => by simp at h
  | (k', v') :: es, h => by
    by_cases hk : k = k'
    · subst hk
      simp [List.lookup_cons] at h
      simp [h]
    · have hb : (k == k') = false := by simpa using hk
      simp only [List.lookup_cons, hb] at h
      exact List.mem_cons_of_mem _ (lookup_mem h)

theorem status_cons (es : List (Location × Node)) (p q : Location) (n : Node) :
    status ⟨(p, n) :: es⟩ q = if q = p then some n else status ⟨es⟩ q := by
  by_cases hq : q = p
  · subst hq
    simp [status, List.lookup_cons]
  · have hb : (q == p) = false := by simpa using hq
    simp [status, List.lookup_cons, hb, hq]

theorem isDirectory_iff {fs : FileSystem} {p : Location} :
    fs.isDirectory p = true ↔ ∃ w, fs.status p = some (.dir w) := by
  unfold isDirectory
  cases h : fs.status p with
  | none => simp
  | some n => cases n <;> simp [Node.isDir]

/-- The outcomes of `create_directory`, case by case. -/
theorem create_directory_cases (fs : FileSystem) (p : Location) :
    ((create_directory fs p).2 = fs ∧
        ((∃ w, fs.status p = some (.dir w) ∧
            (create_directory fs p).1 = Outcome.returned false) ∨
          ∃ what, (create_directory fs p).1 = Outcome.threw what)) ∨
      (∃ name parent, p = name :: parent ∧ fs.status p = none ∧
        fs.status parent = some (.dir true) ∧
        create_directory fs p = (Outcome.returned true, ⟨(p, .dir true) :: fs.entries⟩)) := by
  cases hs : fs.status p with
  | some n =>
    cases n with
    | file => simp [create_directory, hs]
    | dir w => simp [create_directory, hs]
  | none =>
    cases p with
    | nil => simp [create_directory, hs]
    | cons name parent =>
      cases hp : fs.status parent with
      | none => simp [create_directory, hs, hp]
      | some n =>
        cases n with
        | file => simp [create_directory, hs, hp]
        | dir w =>
          cases w with
          | false => simp [create_directory, hs, hp]
          | true =>
            refine Or.inr ⟨name, parent, rfl, rfl, hp, ?_⟩
            simp [create_directory, hs, hp]

/-- One `create_directory` changes the state at its own location only, from
missing to a writable directory. -/
theorem create_directory_status {fs fs' : FileSystem} {p : Location} {o : Outcome}
    (h : create_directory fs p = (o, fs')) (q : Location) :
    fs'.status q = fs.status q ∨
      (fs.status q = none ∧ q = p ∧ fs'.status q = some (.dir true)) := by
  rcases create_directory_cases fs p with ⟨h1, _⟩ | ⟨name, parent, _, hnone, _, h1⟩
  · rw [h] at h1
    simp only at h1
    subst h1
    exact Or.inl rfl
  · rw [h] at h1
    cases h1
    by_cases hq : q = p
    · subst hq
      exact Or.inr ⟨hnone, rfl, by simp [status_cons]⟩
    · exact Or.inl (by simp [status_cons, hq])

theorem create_directory_isDirectory {fs fs' : FileSystem} {p : Location} {b : Bool}
    (h : create_directory fs p = (Outcome.returned b, fs')) : fs'.isDirectory p = true := by
  rcases create_directory_cases fs p with ⟨h1, h2⟩ | ⟨name, parent, _, hnone, _, h1⟩
  · rw [h] at h1 h2
    simp only at h1 h2
    subst h1
    rcases h2 with ⟨w, hw, _⟩ | ⟨what, hw⟩
    · exact isDirectory_iff.mpr ⟨w, hw⟩
    · cases hw
  · rw [h] at h1
    cases h1
    exact isDirectory_iff.mpr ⟨true, by simp [status_cons]⟩

/-- An existing directory is left alone. -/
theorem createAll_of_dir {fs : FileSystem} {p : Location} {w : Bool}
    (h : fs.status p = some (.dir w)) : createAll fs p = (Outcome.returned false, fs) := by
  cases p <;> simp [createAll, h]

theorem createAll_of_file {fs : FileSystem} {p : Location} (h : fs.status p = some .file) :
    createAll fs p = (Outcome.threw (errorMessage "Not a directory"), fs) := by
  cases p <;> simp [createAll, h]

theorem createAll_nil_none {fs : FileSystem} (h : fs.status [] = none) :
    createAll fs [] = create_directory fs [] := by
  simp [createAll, h]

theorem createAll_cons_none {fs : FileSystem} {name : List Char} {parent : Location}
    (h : fs.status (name :: parent) = none) :
    createAll fs (name :: parent) =
      match createAll fs parent with
      | (Outcome.threw what, fs') => (Outcome.threw what, fs')
      | (Outcome.returned _, fs') => create_directory fs' (name :: parent) := by
  simp [createAll, h]

/-- The routine `create_directories` changes the state at the location and
its ancestors only, from missing to a writable directory. -/
theorem createAll_status (p : Location) :
    ∀ {fs fs' : FileSystem} {o : Outcome}, createAll fs p = (o, fs') → ∀ q : Location,
      fs'.status q = fs.status q ∨
        (fs.status q = none ∧ q <:+ p ∧ fs'.status q = some (.dir true)) := by
  induction p with
  | nil =>
    intro fs fs' o h q
    cases hs : fs.status [] with
    | some n =>
      cases n with
      | file => rw [createAll_of_file hs] at h; cases h; exact Or.inl rfl
      | dir w => rw [createAll_of_dir hs] at h; cases h; exact Or.inl rfl
    | none =>
      rw [createAll_nil_none hs] at h
      rcases create_directory_status h q with h1 | ⟨h1, h2, h3⟩
      · exact Or.inl h1
      · exact Or.inr ⟨h1, h2 ▸ List.suffix_refl _, h3⟩
  | cons name parent ih =>
    intro fs fs' o h q
    cases hs : fs.status (name :: parent) with
    | some n =>
      cases n with
      | file => rw [createAll_of_file hs] at h; cases h; exact Or.inl rfl
      | dir w => rw [createAll_of_dir hs] at h; cases h; exact Or.inl rfl
    | none =>
      rw [createAll_cons_none hs] at h
      rcases hc : createAll fs parent with ⟨o1, fs1⟩
      rw [hc] at h
      have ih1 := ih hc q
      cases o1 with
      | threw what =>
        simp only at h
        cases h
        rcases ih1 with h1 | ⟨h1, h2, h3⟩
        · exact Or.inl h1
        · exact Or.inr ⟨h1, List.suffix_cons_iff.mpr (Or.inr h2), h3⟩
      | returned b =>
        simp only at h
        rcases create_directory_status h q with c1 | ⟨c1, c2, c3⟩
        · rcases ih1 with h1 | ⟨h1, h2, h3⟩
          · exact Or.inl (c1.trans h1)
          · exact Or.inr ⟨h1, List.suffix_cons_iff.mpr (Or.inr h2), c1.trans h3⟩
        · rcases ih1 with h1 | ⟨h1, h2, h3⟩
          · exact Or.inr ⟨h1 ▸ c1, c2 ▸ List.suffix_refl _, c3⟩
          · rw [h3] at c1
            cases c1

/-- What exists is left as it is. -/
theorem createAll_frame {p : Location} {fs fs' : FileSystem} {o : Outcome}
    (h : createAll fs p = (o, fs')) {q : Location} (hq : fs.status q ≠ none) :
    fs'.status q = fs.status q := by
  rcases createAll_status p h q with h1 | ⟨h1, _, _⟩
  · exact h1
  · exact absurd h1 hq

/-- After a normal return the directory exists. -/
theorem createAll_isDirectory (p : Location) :
    ∀ {fs fs' : FileSystem} {b : Bool}, createAll fs p = (Outcome.returned b, fs') →
      fs'.isDirectory p = true := by
  cases p with
  | nil =>
    intro fs fs' b h
    cases hs : fs.status [] with
    | some n =>
      cases n with
      | file => rw [createAll_of_file hs] at h; cases h
      | dir w => rw [createAll_of_dir hs] at h; cases h; exact isDirectory_iff.mpr ⟨w, hs⟩
    | none =>
      rw [createAll_nil_none hs] at h
      exact create_directory_isDirectory h
  | cons name parent =>
    intro fs fs' b h
    cases hs : fs.status (name :: parent) with
    | some n =>
      cases n with
      | file => rw [createAll_of_file hs] at h; cases h
      | dir w => rw [createAll_of_dir hs] at h; cases h; exact isDirectory_iff.mpr ⟨w, hs⟩
    | none =>
      rw [createAll_cons_none hs] at h
      rcases hc : createAll fs parent with ⟨o1, fs1⟩
      rw [hc] at h
      cases o1 with
      | threw what => simp only at h; cases h
      | returned b1 => simp only at h; exact create_directory_isDirectory h

theorem wellFormed_iff {fs : FileSystem} :
    fs.wellFormed = true ↔
      fs.isDirectory [] = true ∧
        ∀ e ∈ fs.entries, ∀ name parent, e.1 = name :: parent → fs.isDirectory parent = true := by
  unfold wellFormed
  rw [Bool.and_eq_true, List.all_eq_true]
  constructor
  · rintro ⟨h1, h2⟩
    refine ⟨h1, fun e he name parent hep => ?_⟩
    have := h2 e he
    rw [hep] at this
    exact this
  · rintro ⟨h1, h2⟩
    refine ⟨h1, fun e he => ?_⟩
    cases hep : e.1 with
    | nil => rfl
    | cons name parent => exact h2 e he name parent hep

theorem create_directory_isDirectory_mono {fs fs' : FileSystem} {p : Location} {o : Outcome}
    (h : create_directory fs p = (o, fs')) {q : Location} (hq : fs.isDirectory q = true) :
    fs'.isDirectory q = true := by
  obtain ⟨w, hw⟩ := isDirectory_iff.mp hq
  rcases create_directory_status h q with h1 | ⟨h1, _, _⟩
  · exact isDirectory_iff.mpr ⟨w, h1.trans hw⟩
  · rw [hw] at h1
    cases h1

theorem createAll_isDirectory_mono {fs fs' : FileSystem} {p : Location} {o : Outcome}
    (h : createAll fs p = (o, fs')) {q : Location} (hq : fs.isDirectory q = true) :
    fs'.isDirectory q = true := by
  obtain ⟨w, hw⟩ := isDirectory_iff.mp hq
  have hne : fs.status q ≠ none := by simp [hw]
  exact isDirectory_iff.mpr ⟨w, (createAll_frame h hne).trans hw⟩

/-- One `create_directory` keeps the state a tree. -/
theorem create_directory_wellFormed {fs fs' : FileSystem} {p : Location} {o : Outcome}
    (h : create_directory fs p = (o, fs')) (hwf : fs.wellFormed = true) :
    fs'.wellFormed = true := by
  obtain ⟨hroot, hall⟩ := wellFormed_iff.mp hwf
  refine wellFormed_iff.mpr ⟨create_directory_isDirectory_mono h hroot, ?_⟩
  intro e he name parent hep
  rcases create_directory_cases fs p with ⟨h1, _⟩ | ⟨name1, parent1, hp, _, hpar, h1⟩
  · rw [h] at h1
    simp only at h1
    subst h1
    exact hall e he name parent hep
  · have h2 := h
    rw [h1] at h2
    cases h2
    rcases List.mem_cons.mp he with rfl | he
    · simp only at hep
      rw [hp] at hep
      cases hep
      exact create_directory_isDirectory_mono h (isDirectory_iff.mpr ⟨true, hpar⟩)
    · exact create_directory_isDirectory_mono h (hall e he name parent hep)

/-- The routine `create_directories` keeps the state a tree. -/
theorem createAll_wellFormed (p : Location) :
    ∀ {fs fs' : FileSystem} {o : Outcome}, createAll fs p = (o, fs') →
      fs.wellFormed = true → fs'.wellFormed = true := by
  induction p with
  | nil =>
    intro fs fs' o h hwf
    cases hs : fs.status [] with
    | some n =>
      cases n with
      | file => rw [createAll_of_file hs] at h; cases h; exact hwf
      | dir w => rw [createAll_of_dir hs] at h; cases h; exact hwf
    | none =>
      rw [createAll_nil_none hs] at h
      exact create_directory_wellFormed h hwf
  | cons name parent ih =>
    intro fs fs' o h hwf
    cases hs : fs.status (name :: parent) with
    | some n =>
      cases n with
      | file => rw [createAll_of_file hs] at h; cases h; exact hwf
      | dir w => rw [createAll_of_dir hs] at h; cases h; exact hwf
    | none =>
      rw [createAll_cons_none hs] at h
      rcases hc : createAll fs parent with ⟨o1, fs1⟩
      rw [hc] at h
      have hwf1 := ih hc hwf
      cases o1 with
      | threw what => simp only at h; cases h; exact hwf1
      | returned b => simp only at h; exact create_directory_wellFormed h hwf1

/-- In a tree, the ancestors of a directory are directories. -/
theorem isDirectory_ancestors {fs : FileSystem} (hwf : fs.wellFormed = true) (p : Location) :
    fs.isDirectory p = true → ∀ q, q <:+ p → fs.isDirectory q = true := by
  obtain ⟨hroot, hall⟩ := wellFormed_iff.mp hwf
  induction p with
  | nil =>
    intro _ q hq
    rw [List.suffix_nil.mp hq]
    exact hroot
  | cons name parent ih =>
    intro hp q hq
    rcases List.suffix_cons_iff.mp hq with rfl | hq
    · exact hp
    · obtain ⟨w, hw⟩ := isDirectory_iff.mp hp
      exact ih (hall _ (lookup_mem hw) name parent rfl) q hq

theorem creatable_of_dir {fs : FileSystem} {p : Location} {w : Bool}
    (h : fs.status p = some (.dir w)) : fs.creatable p = true := by
  cases p <;> simp [creatable, isDirectory, h, Node.isDir]

theorem creatable_of_file {fs : FileSystem} {p : Location} (h : fs.status p = some .file) :
    fs.creatable p = false := by
  cases p <;> simp [creatable, isDirectory, h, Node.isDir]

theorem not_cons_suffix (name : List Char) (parent : Location) : ¬ (name :: parent) <:+ parent := by
  intro h
  have := h.length_le
  simp at this

/-- The routine `create_directories` returns normally exactly on the
locations that are or can be made a directory. -/
theorem createAll_returned_iff (p : Location) :
    ∀ {fs fs' : FileSystem} {o : Outcome}, createAll fs p = (o, fs') →
      ((∃ b, o = Outcome.returned b) ↔ fs.creatable p = true) := by
  induction p with
  | nil =>
    intro fs fs' o h
    cases hs : fs.status [] with
    | some n =>
      cases n with
      | file =>
        rw [createAll_of_file hs] at h
        cases h
        simp [creatable_of_file hs]
      | dir w =>
        rw [createAll_of_dir hs] at h
        cases h
        simp [creatable_of_dir hs]
    | none =>
      rw [createAll_nil_none hs] at h
      simp [create_directory, hs] at h
      obtain ⟨rfl, _⟩ := h
      simp [creatable, isDirectory, hs]
  | cons name parent ih =>
    intro fs fs' o h
    cases hs : fs.status (name :: parent) with
    | some n =>
      cases n with
      | file =>
        rw [createAll_of_file hs] at h
        cases h
        simp [creatable_of_file hs]
      | dir w =>
        rw [createAll_of_dir hs] at h
        cases h
        simp [creatable_of_dir hs]
    | none =>
      rw [createAll_cons_none hs] at h
      rcases hc : createAll fs parent with ⟨o1, fs1⟩
      rw [hc] at h
      have ih1 := ih hc
      cases o1 with
      | threw what =>
        simp only at h
        cases h
        have hno : fs.creatable parent = false := by
          cases hcr : fs.creatable parent with
          | false => rfl
          | true =>
            obtain ⟨b, hb⟩ := ih1.mpr hcr
            cases hb
        simp [creatable, hs, hno]
      | returned b1 =>
        simp only at h
        have hyes : fs.creatable parent = true := ih1.mp ⟨b1, rfl⟩
        have hs1 : fs1.status (name :: parent) = none := by
          rcases createAll_status parent hc (name :: parent) with h1 | ⟨_, h2, _⟩
          · exact h1.trans hs
          · exact absurd h2 (not_cons_suffix name parent)
        cases hp : fs.status parent with
        | some n =>
          cases n with
          | file =>
            rw [createAll_of_file hp] at hc
            cases hc
          | dir w =>
            rw [createAll_of_dir hp] at hc
            cases hc
            cases w with
            | false =>
              simp [create_directory, hs, hp] at h
              obtain ⟨rfl, _⟩ := h
              simp [creatable, hs, hp, hyes]
            | true =>
              simp [create_directory, hs, hp] at h
              obtain ⟨rfl, _⟩ := h
              simp [creatable, hs, hp, hyes]
        | none =>
          have hp1 : fs1.status parent = some (.dir true) := by
            rcases createAll_status parent hc parent with h1 | ⟨_, _, h3⟩
            · obtain ⟨w, hw⟩ := isDirectory_iff.mp (createAll_isDirectory parent hc)
              rw [h1, hp] at hw
              cases hw
            · exact h3
          simp [create_directory, hs1, hp1] at h
          obtain ⟨rfl, _⟩ := h
          simp [creatable, hs, hp, hyes]

end FileSystem

/-- The handler over the modelled file system, when `create_directories`
returns normally on a non-empty path. -/
theorem EnsureDir_of_returned {fs fs' : FileSystem} {request : EnsureDirRequest} {b : Bool}
    (hne : request.path.data.isEmpty = false)
    (h : FileSystem.createAll fs (FileSystem.locate request.path) = (Outcome.returned b, fs')) :
    EnsureDir FileSystem.create_directories request fs =
      ((Status.OK, { success := true, error := "" }), fs') := by
  simp [EnsureDir, FileSystem.create_directories, hne, h, EnsureDirResponse.set_success]

/-- C9: in every file system state that is a tree and for every
existing-or-creatable path, `EnsureDir` called twice in a row yields OK with
`success = true` both times, the directory and all its ancestors exist
after the first call and after the second, and the second call leaves the
state unchanged; when the directory exists beforehand, the first call
leaves the state unchanged as well. -/
theorem EnsureDir_idempotent (fs : FileSystem) (request : EnsureDirRequest)
    (hwf : fs.wellFormed = true) (hp : fs.existingOrCreatable request.path = true) :
    (EnsureDir FileSystem.create_directories request fs).1 =
        (Status.OK, { success := true, error := "" }) ∧
      (EnsureDir FileSystem.create_directories request
          (EnsureDir FileSystem.create_directories request fs).2).1 =
        (Status.OK, { success := true, error := "" }) ∧
      (∀ q, q <:+ FileSystem.locate request.path →
        (EnsureDir FileSystem.create_directories request fs).2.isDirectory q = true) ∧
      (∀ q, q <:+ FileSystem.locate request.path →
        (EnsureDir FileSystem.create_directories request
          (EnsureDir FileSystem.create_directories request fs).2).2.isDirectory q = true) ∧
      (EnsureDir FileSystem.create_directories request
          (EnsureDir FileSystem.create_directories request fs).2).2 =
        (EnsureDir FileSystem.create_directories request fs).2 ∧
      (fs.isDirectory (FileSystem.locate request.path) = true →
        (EnsureDir FileSystem.create_directories request fs).2 = fs) := by
  unfold FileSystem.existingOrCreatable at hp
  rw [Bool.and_eq_true] at hp
  obtain ⟨hne, hcr⟩ := hp
  have hne2 : request.path.data.isEmpty = false := by simpa using hne
  rcases hc : FileSystem.createAll fs (FileSystem.locate request.path) with ⟨o, fs1⟩
  obtain ⟨b, rfl⟩ := (FileSystem.createAll_returned_iff _ hc).mpr hcr
  have hdir := FileSystem.createAll_isDirectory _ hc
  have hwf1 := FileSystem.createAll_wellFormed _ hc hwf
  obtain ⟨w, hw⟩ := FileSystem.isDirectory_iff.mp hdir
  have hc2 := FileSystem.createAll_of_dir hw
  have e1 := EnsureDir_of_returned hne2 hc
  have e2 := EnsureDir_of_returned hne2 hc2
  rw [e1]
  dsimp only
  rw [e2]
  refine ⟨rfl, rfl, ?_, ?_, rfl, ?_⟩
  · exact FileSystem.isDirectory_ancestors hwf1 _ hdir
  · exact FileSystem.isDirectory_ancestors hwf1 _ hdir
  · intro hd
    obtain ⟨w0, hw0⟩ := FileSystem.isDirectory_iff.mp hd
    rw [FileSystem.createAll_of_dir hw0] at hc
    cases hc
    rfl

/-- C9, on a tree of three entries and the path `/a/b/c`, which is created
with its two missing ancestors. -/
theorem EnsureDir_idempotent_witness :
    (EnsureDir FileSystem.create_directories ⟨"/a/b/c"⟩
        ⟨[([], .dir true), (["etc".data], .dir false), (["f".data], .file)]⟩).1 =
        (Status.OK, { success := true, error := "" }) ∧
      (EnsureDir FileSystem.create_directories ⟨"/a/b/c"⟩
        ⟨[([], .dir true), (["etc".data], .dir false), (["f".data], .file)]⟩).2.isDirectory
          ["c".data, "b".data, "a".data] = true :=
  ⟨(EnsureDir_idempotent
      ⟨[([], .dir true), (["etc".data], .dir false), (["f".data], .file)]⟩ ⟨"/a/b/c"⟩
      (by decide) (by decide)).1,
    (EnsureDir_idempotent
      ⟨[([], .dir true), (["etc".data], .dir false), (["f".data], .file)]⟩ ⟨"/a/b/c"⟩
      (by decide) (by decide)).2.2.1 _ (List.suffix_refl _)⟩

end UtilsService
